import Mathlib

/-!
Verification of the ForgeAI state/snapshot engine, dependency resolver and
pipeline phases.  The definitions below are a shallow embedding of the
TypeScript sources: JS `Map` objects are modelled as association lists that
keep insertion order (`set` replaces in place, otherwise appends), machine
timestamps (`Date.now()`) are passed in explicitly as `Nat` parameters, and
fallible code is modelled with `Except`.
-/

namespace ForgeAI

/-! ## JS Map model (insertion-ordered association list) -/

/-- `Map.get`: value of the (unique) entry with the given key. -/
def mapGet {α : Type} : List (String × α) → String → Option α
  | [], _ => none
  | p :: rest, k => if p.1 = k then some p.2 else mapGet rest k

/-- `Map.has`. -/
def mapHas {α : Type} : List (String × α) → String → Bool
  | [], _ => false
  | p :: rest, k => decide (p.1 = k) || mapHas rest k

/-- `Map.set`: replaces the entry in place when the key exists, otherwise
appends a new entry at the end (JS insertion-order semantics). -/
def mapSet {α : Type} : List (String × α) → String → α → List (String × α)
  | [], k, v => [(k, v)]
  | p :: rest, k, v => if p.1 = k then (k, v) :: rest else p :: mapSet rest k v

/-- `Map.delete`: removes the entry for the key (keys are unique in a JS
`Map`, so removing every matching entry is the same operation). -/
def mapDelete {α : Type} : List (String × α) → String → List (String × α)
  | [], _ => []
  | p :: rest, k => if p.1 = k then mapDelete rest k else p :: mapDelete rest k

/-- `Map.values()` in insertion order. -/
def mapValues {α : Type} (m : List (String × α)) : List α :=
  m.map (fun p => p.2)

/-! ## String helpers

JS string primitives (`split`, `join`, `trim`, `toLowerCase`,
`startsWith`, `sort` comparison) are modelled by structurally recursive
functions over the character list of the string. -/

/-- JS `split(sep)` with a single-character separator, on char lists. -/
def splitCharsOn (sep : Char) : List Char → List (List Char)
  | [] => [[]]
  | c :: rest =>
    let r := splitCharsOn sep rest
    if c = sep then [] :: r
    else
      match r with
      | h :: t => (c :: h) :: t
      | [] => [[c]]

/-- JS `split(sep)` with a single-character separator. -/
def strSplitOnChar (sep : Char) (s : String) : List String :=
  (splitCharsOn sep s.toList).map List.asString

/-- JS `Array.prototype.join(sep)` on char lists. -/
def joinChars (sep : Char) : List (List Char) → List Char
  | [] => []
  | [x] => x
  | x :: y :: t => x ++ sep :: joinChars sep (y :: t)

/-- JS `Array.prototype.join(sep)` for strings. -/
def strJoinWith (sep : Char) (l : List String) : String :=
  (joinChars sep (l.map String.toList)).asString

/-- JS `trim()`: strip whitespace from both ends. -/
def trimChars (l : List Char) : List Char :=
  ((l.dropWhile Char.isWhitespace).reverse.dropWhile Char.isWhitespace).reverse

/-- JS `trim()` for strings. -/
def strTrim (s : String) : String := (trimChars s.toList).asString

/-- JS `toLowerCase()` for the ASCII letters (the only ones reaching it). -/
def charToLower (c : Char) : Char :=
  if 65 ≤ c.toNat ∧ c.toNat ≤ 90 then Char.ofNat (c.toNat + 32) else c

/-- JS `toLowerCase()` for strings. -/
def strToLower (s : String) : String :=
  (s.toList.map charToLower).asString

/-- JS default string comparison (code-unit lexicographic) on char lists. -/
def charListLe : List Char → List Char → Bool
  | [], _ => true
  | _ :: _, [] => false
  | a :: as, b :: bs => if a = b then charListLe as bs else decide (a < b)

/-- JS default string comparison. -/
def strLeB (a b : String) : Bool := charListLe a.toList b.toList

/-! ## Data model (`src/types/state.ts`) -/

/-- `VirtualFile`: a named text artifact.  `metadata` values are opaque in the
source (`Record<string, unknown>`); only their presence matters here. -/
structure VirtualFile where
  path : String
  content : String
  language : Option String := none
  metadata : List (String × String) := []
  version : Nat
  lastModified : Nat
deriving DecidableEq, Repr

/-- `FileChange.type`. -/
inductive ChangeType where
  | create
  | update
  | delete
deriving DecidableEq, Repr

/-- `FileChange`: one entry of a batch, `content`/`language` optional. -/
structure FileChange where
  type : ChangeType
  path : String
  content : Option String := none
  language : Option String := none
deriving DecidableEq, Repr

/-- `FileState`: the artifact map (path → VirtualFile). -/
abbrev FileStateMap : Type := List (String × VirtualFile)

/-! ## Virtual file system (`src/state/virtual-fs.ts`) -/

/-- Language map used by `inferLanguage`. -/
def languageMap : List (String × String) :=
  [("ts", "typescript"), ("tsx", "typescript"), ("js", "javascript"),
   ("jsx", "javascript"), ("json", "json"), ("html", "html"),
   ("md", "markdown")]

/-- `inferLanguage(path)`: looks up the final extension segment. -/
def inferLanguage (path : String) : Option String :=
  match (strSplitOnChar (Char.ofNat 46) path).getLast? with
  | none => none
  | some ext => mapGet languageMap (strToLower ext)

/-- `VirtualFileSystem` constructor: inserts each initial file keyed by path. -/
def vfsOfFiles (initialFiles : List VirtualFile) : FileStateMap :=
  initialFiles.foldl (fun m f => mapSet m f.path f) []

/-- `getFile(path)`. -/
def getFile (fs : FileStateMap) (path : String) : Option VirtualFile :=
  mapGet fs path

/-- `exists(path)`. -/
def fileExists (fs : FileStateMap) (path : String) : Bool :=
  mapHas fs path

/-- `writeFile(path, content, language?)`: creates (version 1) or updates
(version previous + 1); preserves metadata and language when not overridden. -/
def writeFile (fs : FileStateMap) (path content : String)
    (language : Option String) (now : Nat) : VirtualFile × FileStateMap :=
  let existing := getFile fs path
  let file : VirtualFile :=
    { path := path
      content := content
      language := language <|> (existing.bind (fun f => f.language))
            <|> inferLanguage path
      metadata := match existing with
                  | some f => f.metadata
                  | none => []
      version := (match existing with
                  | some f => f.version
                  | none => 0) + 1
      lastModified := now }
  (file, mapSet fs path file)

/-- `deleteFile(path)`: returns whether the path existed. -/
def deleteFile (fs : FileStateMap) (path : String) : Bool × FileStateMap :=
  (mapHas fs path, mapDelete fs path)

/-- One iteration of the `applyChanges` loop: the accumulator carries the
`modifiedFiles` list and the mutated store. -/
def applyChange (now : Nat) (acc : List VirtualFile × FileStateMap)
    (change : FileChange) : List VirtualFile × FileStateMap :=
  match change.type with
  | ChangeType.create | ChangeType.update =>
    match change.content with
    | some content =>
      let r := writeFile acc.2 change.path content change.language now
      (acc.1 ++ [r.1], r.2)
    | none => acc
  | ChangeType.delete =>
    let r := deleteFile acc.2 change.path
    if r.1 then
      (acc.1 ++ [{ path := change.path, content := "", version := 0,
                   lastModified := now }], r.2)
    else
      (acc.1, acc.2)

/-- `applyChanges(changes)`: applies each change in array order; create/update
with absent content are skipped, deletes of missing paths produce no record;
deletions are reported as version-0 tombstones.  The loop body has no failing
branch, so the whole operation is total (it never throws). -/
def applyChanges (fs : FileStateMap) (changes : List FileChange) (now : Nat) :
    List VirtualFile × FileStateMap :=
  changes.foldl (applyChange now) ([], fs)

/-- `writeFile` iterated over a list of contents at a fixed path. -/
def writeSeq (fs : FileStateMap) (path : String) (contents : List String)
    (now : Nat) : FileStateMap :=
  contents.foldl (fun m c => (writeFile m path c none now).2) fs

/-- Version of the artifact at a path, `0` when absent (the source's
`existing?.version || 0`). -/
def versionAt (fs : FileStateMap) (path : String) : Nat :=
  match getFile fs path with
  | some f => f.version
  | none => 0

/-! ## State manager data model (`src/types/state.ts`) -/

/-- Pipeline stage enum (`Phase`). -/
inductive Phase where
  | idle
  | intent
  | planning
  | executing
  | validating
  | completed
  | error
deriving DecidableEq, Repr

/-- Conversation `Message`. -/
structure Message where
  id : String
  role : String
  content : String
  timestamp : Nat
  metadata : List (String × String) := []
deriving DecidableEq, Repr

/-- `PhaseResult` audit-trail entry; the opaque `data` payload is modelled as
an optional string. -/
structure PhaseResult where
  phase : Phase
  success : Bool
  timestamp : Nat
  data : Option String := none
  error : Option String := none
deriving DecidableEq, Repr

/-- `AgentState`: the aggregate session state. -/
structure AgentState where
  files : FileStateMap
  messages : List Message
  currentPhase : Phase
  history : List PhaseResult
  version : Nat
  createdAt : Nat
  updatedAt : Nat
deriving DecidableEq, Repr

/-- `StateSnapshot`: a deep copy of state tagged with version and time. -/
structure StateSnapshot where
  state : AgentState
  version : Nat
  timestamp : Nat
deriving DecidableEq, Repr

/-! ## State manager (`src/state/state-manager.ts`)

The manager's private `vfs` is rebuilt from / written back to `state.files`
at every public operation, so the two never diverge; the model keeps the
single `state.files` map.  The storage adapter is modelled with the
in-memory adapter's semantics (`src/adapters/memory.adapter.ts`): `load`
returns the saved state or nothing, `save` stores a deep copy, `clear`
empties it. -/

structure StateManager where
  state : AgentState
  snapshots : List StateSnapshot
  maxSnapshots : Nat
  autoSave : Bool
  store : Option AgentState
deriving DecidableEq, Repr

namespace StateManager

/-- `createEmptyState()`. -/
def createEmptyState (now : Nat) : AgentState :=
  { files := [], messages := [], currentPhase := Phase.idle, history := [],
    version := 1, createdAt := now, updatedAt := now }

/-- The constructor: empty state, empty snapshot FIFO of bound 10. -/
def new (store : Option AgentState) (autoSave : Bool) (now : Nat) :
    StateManager :=
  { state := createEmptyState now, snapshots := [], maxSnapshots := 10,
    autoSave := autoSave, store := store }

/-- `persist()`: delegates to the adapter's `save`. -/
def persist (m : StateManager) : StateManager :=
  { m with store := some m.state }

/-- The recurring `if (this.autoSave) await this.persist()` step. -/
def persistIfAuto (m : StateManager) : StateManager :=
  if m.autoSave then persist m else m

/-- The snapshot value built by `createSnapshot` (the JSON
stringify/parse round trip is a deep copy, i.e. the identity on values). -/
def mkSnapshot (m : StateManager) (now : Nat) : StateSnapshot :=
  { state := m.state, version := m.state.version, timestamp := now }

/-- `createSnapshot()`: pushes the snapshot and evicts the oldest when the
FIFO exceeds `maxSnapshots`. -/
def createSnapshot (m : StateManager) (now : Nat) :
    StateSnapshot × StateManager :=
  let s := mkSnapshot m now
  let l := m.snapshots ++ [s]
  (s, { m with snapshots := if l.length > m.maxSnapshots then l.drop 1 else l })

/-- `initialize(initialFiles?)`: adopt stored state when present, else seed
from `initialFiles` (persisting when auto-save is on), else keep the empty
state; always ends by taking one snapshot. -/
def init (m : StateManager) (initialFiles : Option (List VirtualFile))
    (now : Nat) : StateManager :=
  let m1 :=
    match m.store with
    | some stored => { m with state := stored }
    | none =>
      match initialFiles with
      | some fs =>
        persistIfAuto { m with state := { m.state with files := vfsOfFiles fs } }
      | none => m
  (createSnapshot m1 now).2

/-- `updateFiles(changes)`: delegates to `applyChanges`, bumps the state
version by exactly 1, stamps `updatedAt`, persists when auto-save is on. -/
def updateFiles (m : StateManager) (changes : List FileChange) (now : Nat) :
    List VirtualFile × StateManager :=
  let r := applyChanges m.state.files changes now
  let m1 := { m with state := { m.state with
                                files := r.2
                                updatedAt := now
                                version := m.state.version + 1 } }
  (r.1, persistIfAuto m1)

/-- `addMessage(message)`: appends with a fresh id and timestamp. -/
def addMessage (m : StateManager) (role content id : String) (now : Nat) :
    Message × StateManager :=
  let msg : Message := { id := id, role := role, content := content,
                         timestamp := now }
  let m1 := { m with state := { m.state with
                                messages := m.state.messages ++ [msg]
                                updatedAt := now } }
  (msg, persistIfAuto m1)

/-- `setPhase(phase)`. -/
def setPhase (m : StateManager) (p : Phase) (now : Nat) : StateManager :=
  persistIfAuto { m with state := { m.state with
                                    currentPhase := p
                                    updatedAt := now } }

/-- `addPhaseResult(result)`. -/
def addPhaseResult (m : StateManager) (r : PhaseResult) (now : Nat) :
    StateManager :=
  persistIfAuto { m with state := { m.state with
                                    history := m.state.history ++ [r]
                                    updatedAt := now } }

/-- `restoreSnapshot(snapshot)`: replaces live state (and rebuilds the file
store) from the snapshot. -/
def restoreSnapshot (m : StateManager) (s : StateSnapshot) : StateManager :=
  { m with state := s.state }

/-- `rollback(version)`: `Array.find` returns the first retained snapshot
whose version tag equals the request. -/
def rollback (m : StateManager) (v : Nat) : Bool × StateManager :=
  match m.snapshots.find? (fun s => decide (s.version = v)) with
  | some s => (true, persistIfAuto (restoreSnapshot m s))
  | none => (false, m)

/-- `transaction(fn)`: snapshot first; on success persist (when auto-save) and
return the result, on error restore the snapshot and re-raise.  `fn` receives
the manager (it mutates it through its methods) and either returns a value or
throws. -/
def transaction {α E : Type} (m : StateManager)
    (fn : StateManager → Except E α × StateManager) (now : Nat) :
    Except E α × StateManager :=
  match fn (createSnapshot m now).2 with
  | (Except.ok r, m2) => (Except.ok r, persistIfAuto m2)
  | (Except.error e, m2) =>
    (Except.error e, restoreSnapshot m2 (createSnapshot m now).1)

/-- `clear()`: fresh empty state, snapshot FIFO emptied, adapter cleared. -/
def clear (m : StateManager) (now : Nat) : StateManager :=
  { m with state := createEmptyState now, snapshots := [], store := none }

end StateManager

/-! ## Operation language over the state manager

`AgentOp` covers every public mutating method of the `StateManager`; a
transaction body is itself a sequence of operations together with a flag
saying whether the supplied function ends by throwing. -/

inductive AgentOp where
  | update (changes : List FileChange) (now : Nat)
  | message (role content id : String) (now : Nat)
  | phase (p : Phase) (now : Nat)
  | record (r : PhaseResult) (now : Nat)
  | snap (now : Nat)
  | roll (v : Nat)
  | reinit (seeds : Option (List VirtualFile)) (now : Nat)
  | wipe (now : Nat)
  | txn (body : List AgentOp) (fails : Bool) (now : Nat)

mutual

/-- Run one operation against the manager. -/
def execOp : AgentOp → StateManager → StateManager
  | AgentOp.update cs now, m => (StateManager.updateFiles m cs now).2
  | AgentOp.message r c i now, m => (StateManager.addMessage m r c i now).2
  | AgentOp.phase p now, m => StateManager.setPhase m p now
  | AgentOp.record r now, m => StateManager.addPhaseResult m r now
  | AgentOp.snap now, m => (StateManager.createSnapshot m now).2
  | AgentOp.roll v, m => (StateManager.rollback m v).2
  | AgentOp.reinit seeds now, m => StateManager.init m seeds now
  | AgentOp.wipe now, m => StateManager.clear m now
  | AgentOp.txn body fails now, m =>
    let sp := StateManager.createSnapshot m now
    let m1 := execOps body sp.2
    if fails then StateManager.restoreSnapshot m1 sp.1
    else StateManager.persistIfAuto m1

/-- Run a sequence of operations. -/
def execOps : List AgentOp → StateManager → StateManager
  | [], m => m
  | o :: rest, m => execOps rest (execOp o m)

end

/-! ## Dependency resolver (`src/types/providers.ts`, dependency-graph part)

`extractImports` runs four global regexes over the content.  The matchers
below are a hand translation of those regexes over `List Char`; the
alternation points of each pattern are distinguished by their first
character, so the backtracking regex semantics coincides with the
committed-choice implementation here.  `\s` is modelled by
`Char.isWhitespace` and `\w` by alphanumeric-or-underscore. -/

/-- `\w` character class. -/
def isWordChar (c : Char) : Bool := c.isAlphanum || c = '_'

/-- The two quote characters of the `['\x22]` classes (code points 34, 39). -/
def isQuoteChar (c : Char) : Bool := c.toNat = 34 || c.toNat = 39

/-- Match a literal token, returning the rest. -/
def litP : List Char → List Char → Option (List Char)
  | [], cs => some cs
  | p :: ps, c :: cs => if c = p then litP ps cs else none
  | _ :: _, [] => none

/-- `\s+` (maximal munch: the following token is never a whitespace class). -/
def ws1P : List Char → Option (List Char)
  | c :: rest =>
    if c.isWhitespace then some (rest.dropWhile Char.isWhitespace) else none
  | [] => none

/-- `\s*`. -/
def wsManyP (cs : List Char) : List Char := cs.dropWhile Char.isWhitespace

/-- `\w+` (maximal munch). -/
def word1P : List Char → Option (List Char)
  | c :: rest =>
    if isWordChar c then some (rest.dropWhile isWordChar) else none
  | [] => none

/-- A quoted specifier: quote, one or more non-quote characters (captured),
closing quote.  The opening and closing quote need not agree, exactly as in
the regexes. -/
def quotedSpecP : List Char → Option (String × List Char)
  | c :: rest =>
    if isQuoteChar c then
      let spec := rest.takeWhile (fun d => ! isQuoteChar d)
      if spec.isEmpty then none
      else
        match rest.drop spec.length with
        | d :: rest2 => if isQuoteChar d then some (spec.asString, rest2) else none
        | [] => none
    else none
  | [] => none

/-- `\s+from\s+`. -/
def fromKeywordP (cs : List Char) : Option (List Char) := do
  let r ← ws1P cs
  let r ← litP ("from".toList) r
  ws1P r

/-- Brace import clause `\x7b[^\x7d]*\x7d` followed by `\s+from\s+` (the brace
characters are written via their code points 123 and 125). -/
def clauseBracesP : List Char → Option (List Char)
  | c :: rest =>
    if c.toNat = 123 then
      match rest.dropWhile (fun d => ! (d.toNat = 125)) with
      | _ :: rest2 => fromKeywordP rest2
      | [] => none
    else none
  | [] => none

/-- Namespace import clause `\*\s+as\s+\w+` followed by `\s+from\s+`. -/
def clauseStarP : List Char → Option (List Char)
  | c :: rest =>
    if c = '*' then do
      let r ← ws1P rest
      let r ← litP ("as".toList) r
      let r ← ws1P r
      let r ← word1P r
      fromKeywordP r
    else none
  | [] => none

/-- Default import clause `\w+` followed by `\s+from\s+`. -/
def clauseWordP (cs : List Char) : Option (List Char) := do
  let r ← word1P cs
  fromKeywordP r

/-- Static import pattern: `import` `\s+` optional clause, quoted specifier. -/
def importFromAt (cs : List Char) : Option (String × List Char) := do
  let r ← litP ("import".toList) cs
  let r ← ws1P r
  let afterClause :=
    match clauseBracesP r <|> clauseStarP r <|> clauseWordP r with
    | some r2 => r2
    | none => r
  quotedSpecP afterClause

/-- Re-export pattern: `export` `\s+` brace clause or `\*`, `\s+from\s+`,
quoted specifier. -/
def exportFromAt (cs : List Char) : Option (String × List Char) := do
  let r ← litP ("export".toList) cs
  let r ← ws1P r
  let r2 ← (match r with
    | c :: rest =>
      if c.toNat = 123 then
        match rest.dropWhile (fun d => ! (d.toNat = 125)) with
        | _ :: rest3 => some rest3
        | [] => none
      else if c = '*' then some rest
      else none
    | [] => none)
  let r3 ← fromKeywordP r2
  quotedSpecP r3

/-- Dynamic import pattern: `import` `\s*` `(` `\s*` quoted specifier `\s*` `)`. -/
def dynamicImportAt (cs : List Char) : Option (String × List Char) := do
  let r ← litP ("import".toList) cs
  let r ← litP ("(".toList) (wsManyP r)
  let (spec, r2) ← quotedSpecP (wsManyP r)
  let r3 ← litP (")".toList) (wsManyP r2)
  some (spec, r3)

/-- CommonJS require pattern: `require` `\s*` `(` `\s*` quoted specifier
`\s*` `)`. -/
def requireCallAt (cs : List Char) : Option (String × List Char) := do
  let r ← litP ("require".toList) cs
  let r ← litP ("(".toList) (wsManyP r)
  let (spec, r2) ← quotedSpecP (wsManyP r)
  let r3 ← litP (")".toList) (wsManyP r2)
  some (spec, r3)

/-- `matchAll` driver: leftmost matches, continuing after each match; every
match consumes at least one character, so the input length bounds the
number of steps. -/
def scanAux (matchAt : List Char → Option (String × List Char)) :
    Nat → List Char → List String
  | 0, _ => []
  | _, [] => []
  | fuel + 1, c :: rest =>
    match matchAt (c :: rest) with
    | some (spec, after) => spec :: scanAux matchAt fuel after
    | none => scanAux matchAt fuel rest

/-- All capture-group values of one pattern over the content. -/
def scanPattern (matchAt : List Char → Option (String × List Char))
    (content : String) : List String :=
  scanAux matchAt content.length content.toList

/-- JS `Set` insertion-order deduplication. -/
def dedupKeepFirst (l : List String) : List String :=
  l.foldl (fun acc s => if acc.contains s then acc else acc ++ [s]) []

/-- Character-level prefix test. -/
def listIsPrefix : List Char → List Char → Bool
  | [], _ => true
  | _ :: _, [] => false
  | p :: ps, c :: cs => p = c && listIsPrefix ps cs

/-- JS `String.prototype.startsWith`. -/
def strStartsWith (s pre : String) : Bool := listIsPrefix pre.toList s.toList

/-- `isBareModule(specifier)`: everything that does not start with `.` or `/`. -/
def isBareModule (s : String) : Bool :=
  ! (strStartsWith s "." || strStartsWith s "/")

/-- `extractImports(content)`: all four patterns in order, bare modules
excluded, deduplicated in first-seen order. -/
def extractImports (content : String) : List String :=
  let all := scanPattern importFromAt content ++ scanPattern exportFromAt content
      ++ scanPattern dynamicImportAt content ++ scanPattern requireCallAt content
  dedupKeepFirst (all.filter (fun s => ! isBareModule s))

/-- `resolveRelativePath(specifier, importerPath)`: stack-based segment
processing against the importer's directory. -/
def resolveRelativePath (specifier importerPath : String) : String :=
  let slash : Char := Char.ofNat 47
  let importerDir := strJoinWith slash ((strSplitOnChar slash importerPath).dropLast)
  let parts := strSplitOnChar slash specifier
  let dirParts := (strSplitOnChar slash importerDir).filter (fun p => p ≠ "")
  let finalParts := parts.foldl
    (fun acc part =>
      if part = "." then acc
      else if part = ".." then acc.dropLast
      else acc ++ [part])
    dirParts
  "/" ++ strJoinWith slash finalParts

/-- `resolveWithExtensions(basePath, existingPaths)`: exact match, then the
fixed extension list, then the fixed index-file list; first hit wins. -/
def resolveWithExtensions (basePath : String) (existingPaths : List String) :
    Option String :=
  if existingPaths.contains basePath then some basePath
  else
    match [".ts", ".tsx", ".js", ".jsx"].findSome?
        (fun ext => if existingPaths.contains (basePath ++ ext)
                    then some (basePath ++ ext) else none) with
    | some p => some p
    | none =>
      ["/index.ts", "/index.tsx", "/index.js", "/index.jsx"].findSome?
        (fun f => if existingPaths.contains (basePath ++ f)
                  then some (basePath ++ f) else none)

/-- `resolveImportPath(specifier, importerPath, existingPaths)`. -/
def resolveImportPath (specifier importerPath : String)
    (existingPaths : List String) : Option String :=
  if isBareModule specifier then none
  else if strStartsWith specifier "." then
    resolveWithExtensions (resolveRelativePath specifier importerPath)
      existingPaths
  else if strStartsWith specifier "/" then
    resolveWithExtensions specifier existingPaths
  else none

/-- `DependencyGraph`: forward and reverse adjacency, insertion-ordered. -/
structure DependencyGraph where
  dependencies : List (String × List String)
  dependents : List (String × List String)
deriving DecidableEq, Repr

/-- Insert into a sorted list (JS default comparator). -/
def insertSorted (x : String) : List String → List String
  | [] => [x]
  | y :: rest => if strLeB x y then x :: y :: rest else y :: insertSorted x rest

/-- JS `Array.prototype.sort()` on strings (code-unit lexicographic). -/
def sortStrings : List String → List String
  | [] => []
  | x :: rest => insertSorted x (sortStrings rest)

/-- One import specifier of one file: resolve it and record the forward and
reverse edge (self-edges excluded, reverse lists deduplicated). -/
def addEdge (filePath : String) (existingPaths : List String)
    (acc : List String × List (String × List String)) (spec : String) :
    List String × List (String × List String) :=
  match resolveImportPath spec filePath existingPaths with
  | some r =>
    if r = filePath then acc
    else
      let cur := (mapGet acc.2 r).getD []
      let cur2 := if cur.contains filePath then cur else cur ++ [filePath]
      (acc.1 ++ [r], mapSet acc.2 r cur2)
  | none => acc

/-- Per-file step of `buildDependencyGraph`'s main loop. -/
def processFile (existingPaths : List String)
    (acc : List (String × List String) × List (String × List String))
    (f : VirtualFile) :
    List (String × List String) × List (String × List String) :=
  let r := (extractImports f.content).foldl (addEdge f.path existingPaths)
    ([], acc.2)
  (mapSet acc.1 f.path (sortStrings (dedupKeepFirst r.1)), r.2)

/-- `buildDependencyGraph(files)`. -/
def buildDependencyGraph (files : List VirtualFile) : DependencyGraph :=
  let existingPaths := files.map (fun f => f.path)
  let deps0 := files.foldl (fun m f => mapSet m f.path ([] : List String)) []
  let depts0 := files.foldl (fun m f => mapSet m f.path ([] : List String)) []
  let r := files.foldl (processFile existingPaths) (deps0, depts0)
  { dependencies := r.1, dependents := r.2 }

/-! ## Execute phase (`src/orchestrator/phases/execute.phase.ts`)

The per-action LLM-driven content generation (`executeAction`) and the
policy collaborator (`PolicyGate.validateFileChanges`, whose implementation
lives outside the state core) enter as function parameters; the loop,
error-string formats and result assembly are translated from the source. -/

/-- `Action.type`. -/
inductive ActionType where
  | createFile
  | updateFile
  | deleteFile
  | readFile
deriving DecidableEq, Repr

/-- A plan `Action`. -/
structure Action where
  id : String
  type : ActionType
  path : String
  description : String := ""
  relatedFiles : List String := []
deriving DecidableEq, Repr

/-- Result of a policy collaborator check (`{allowed, reason?}`). -/
structure PolicyDecision where
  allowed : Bool
  reason : String := ""
deriving DecidableEq, Repr

/-- `ExecutionResult`: `errors` is `undefined` when no error was recorded. -/
structure ExecutionResult where
  success : Bool
  filesChanged : List String
  errors : Option (List String)
deriving DecidableEq, Repr

/-- The `filesChanged` tracking loop (push if not already present). -/
def trackChanged (filesChanged : List String) (changes : List FileChange) :
    List String :=
  changes.foldl
    (fun acc c => if acc.contains c.path then acc else acc ++ [c.path])
    filesChanged

/-- One iteration of the action loop.  The accumulator is
(filesChanged, errors, applied changes); `runAction` models
`executeAction` (it throws with a message or returns a change set) and
`checkChanges` models the policy collaborator. -/
def executeActionStep (runAction : Action → Except String (List FileChange))
    (checkChanges : List FileChange → PolicyDecision)
    (acc : List String × List String × List FileChange) (action : Action) :
    List String × List String × List FileChange :=
  match runAction action with
  | Except.error msg =>
    (acc.1, acc.2.1 ++ ["Action " ++ action.id ++ " failed: " ++ msg], acc.2.2)
  | Except.ok changes =>
    let d := checkChanges changes
    if d.allowed then
      (trackChanged acc.1 changes, acc.2.1, acc.2.2 ++ changes)
    else
      (acc.1,
       acc.2.1 ++ ["Policy violation for " ++ action.path ++ ": " ++ d.reason],
       acc.2.2)

/-- The `execute` loop over a plan's actions: policy-rejected actions record
one failure string and their changes are discarded; the loop always
continues.  Returns the `ExecutionResult` and the concatenation of all
applied change batches (the `onFileChange` applications). -/
def executeActions (runAction : Action → Except String (List FileChange))
    (checkChanges : List FileChange → PolicyDecision)
    (actions : List Action) : ExecutionResult × List FileChange :=
  let r := actions.foldl (executeActionStep runAction checkChanges) ([], [], [])
  ({ success := r.2.1.isEmpty
     filesChanged := r.1
     errors := if r.2.1.isEmpty then none else some r.2.1 }, r.2.2)

/-! ## Intent phase (`src/orchestrator/phases/intent.phase.ts`)

`parseIntentResponse` first extracts a fenced block via
`/\x60\x60\x60(?:json)?\s*([\s\S]*?)\x60\x60\x60/`, then runs `JSON.parse`
plus schema validation; both steps together are the `pv` parameter below
(the schema module lives outside the state core).  On a first failure it
retries on the raw content, and when that also fails it returns the default
low-confidence query classification. -/

/-- `IntentType`. -/
inductive IntentType where
  | create
  | edit
  | delete
  | query
  | refactor
  | analyze
deriving DecidableEq, Repr

/-- `IntentResult` (confidence is a number in [0,1], modelled in ℚ). -/
structure IntentResult where
  type : IntentType
  confidence : ℚ
  targetFiles : List String
  reasoning : String
deriving DecidableEq, Repr

/-- The three-backtick fence token. -/
def fenceToken : List Char := "```".toList

/-- Split at the first closing fence: returns (text before it, rest after). -/
def splitAtFence : List Char → Option (List Char × List Char)
  | [] => none
  | c :: rest =>
    match litP fenceToken (c :: rest) with
    | some after => some ([], after)
    | none =>
      match splitAtFence rest with
      | some (pre, post) => some (c :: pre, post)
      | none => none

/-- Leftmost match of the fenced-block regex, returning the capture.  The
optional `json` tag contains no backtick, so committing to it when present
agrees with the regex's backtracking. -/
def fencedCaptureAux : Nat → List Char → Option String
  | 0, _ => none
  | _, [] => none
  | fuel + 1, c :: rest =>
    match litP fenceToken (c :: rest) with
    | some afterOpen =>
      let afterJson :=
        match litP ("json".toList) afterOpen with
        | some r => r
        | none => afterOpen
      (match splitAtFence (wsManyP afterJson) with
       | some (body, _) => some body.asString
       | none => fencedCaptureAux fuel rest)
    | none => fencedCaptureAux fuel rest

/-- `jsonStr`: the trimmed fenced capture when the regex matches, otherwise
the trimmed content. -/
def extractJsonStr (content : String) : String :=
  match fencedCaptureAux content.length content.toList with
  | some captured => strTrim captured
  | none => strTrim content

/-- `parseIntentResponse(content)` with the parse-and-validate step
abstracted as `pv`. -/
def parseIntentResponse (pv : String → Except String IntentResult)
    (content : String) : IntentResult :=
  match pv (extractJsonStr content) with
  | Except.ok r => r
  | Except.error e =>
    match pv content with
    | Except.ok r => r
    | Except.error _ =>
      { type := IntentType.query
        confidence := 1/2
        targetFiles := []
        reasoning := "Failed to parse LLM response: " ++ e }

/-! ## Concrete artifact sets used below -/

/-- A plain artifact with only path and content. -/
def plainFile (p c : String) : VirtualFile :=
  { path := p, content := c, version := 1, lastModified := 0 }

/-- Artifact set where an extension-less artifact `/b` shadows `/b.ts` in the
probe order of `resolveWithExtensions`. -/
def shadowFiles : List VirtualFile :=
  [plainFile "/a.ts" "import x from './b'", plainFile "/b" "",
   plainFile "/b.ts" ""]

/-- Artifact set whose `/a.ts` content merely contains the text
`import x from './b'` as a substring: the leading `import '` makes the first
regex consume the region as one quoted specifier, so no edge is produced. -/
def quoteFiles : List VirtualFile :=
  [plainFile "/a.ts" "import 'import x from './b'", plainFile "/b.ts" ""]

/-- `startsSlash s`: the first character of `s` is `/`. -/
def startsSlash (s : String) : Prop := ∃ t, s.toList = '/' :: t

/-! ## Concrete managers used below -/

/-- A single file-creating change. -/
def mkCreate (p c : String) : FileChange :=
  { type := ChangeType.create, path := p, content := some c }

/-- Reachable manager holding two version-2 snapshots with different
artifact content: create `/x.ts = A`, snapshot, roll back to version 1,
create `/x.ts = B`, snapshot. -/
def twoV2Manager : StateManager :=
  let s0 := StateManager.init (StateManager.new none false 0) none 0
  let s1 := (StateManager.updateFiles s0 [mkCreate "/x.ts" "A"] 1).2
  let s2 := (StateManager.createSnapshot s1 2).2
  let s3 := (StateManager.rollback s2 1).2
  let s4 := (StateManager.updateFiles s3 [mkCreate "/x.ts" "B"] 3).2
  (StateManager.createSnapshot s4 4).2

/-- A create-then-snapshot round used to fill the snapshot FIFO. -/
def fillStep (m : StateManager) (_ : Nat) : StateManager :=
  (StateManager.createSnapshot
    (StateManager.updateFiles m [mkCreate "/f" "x"] 0).2 0).2

/-- Manager with nine retained snapshots (versions 2..10). -/
def nineSnapManager : StateManager :=
  (List.range 9).foldl fillStep (StateManager.new none false 0)

/-- `nineSnapManager` after one `initialize()` (ten snapshots). -/
def initOnce : StateManager := StateManager.init nineSnapManager none 0

/-- `nineSnapManager` after two `initialize()` calls (the second evicts the
oldest snapshot, the one tagged with version 2). -/
def initTwice : StateManager := StateManager.init initOnce none 0

/-! # Theorems -/

/-! ## Map lemmas -/

theorem mapGet_set_self {α : Type} (m : List (String × α)) (k : String) (v : α) :
    mapGet (mapSet m k v) k = some v := by
  induction m with
  | nil => simp [mapSet, mapGet]
  | cons q rest ih =>
    by_cases hq : q.1 = k
    · simp [mapSet, mapGet, hq]
    · simp [mapSet, mapGet, hq, ih]

theorem mapGet_set_ne {α : Type} (m : List (String × α)) (k k' : String) (v : α)
    (h : k' ≠ k) : mapGet (mapSet m k v) k' = mapGet m k' := by
  induction m with
  | nil => simp [mapSet, mapGet, Ne.symm h]
  | cons q rest ih =>
    by_cases hq : q.1 = k
    · simp [mapSet, mapGet, hq, Ne.symm h]
    · by_cases hq' : q.1 = k'
      · simp only [mapSet, if_neg hq, mapGet, if_pos hq']
      · simp only [mapSet, if_neg hq, mapGet, if_neg hq']
        exact ih

theorem mapGet_delete_self {α : Type} (m : List (String × α)) (k : String) :
    mapGet (mapDelete m k) k = none := by
  induction m with
  | nil => simp [mapDelete, mapGet]
  | cons q rest ih =>
    by_cases hq : q.1 = k
    · simpa [mapDelete, hq] using ih
    · simpa [mapDelete, mapGet, hq] using ih

/-! ## State manager helper lemmas -/

theorem persistIfAuto_state (m : StateManager) :
    (StateManager.persistIfAuto m).state = m.state := by
  unfold StateManager.persistIfAuto StateManager.persist
  split <;> rfl

theorem persistIfAuto_snapshots (m : StateManager) :
    (StateManager.persistIfAuto m).snapshots = m.snapshots := by
  unfold StateManager.persistIfAuto StateManager.persist
  split <;> rfl

theorem persistIfAuto_maxSnapshots (m : StateManager) :
    (StateManager.persistIfAuto m).maxSnapshots = m.maxSnapshots := by
  unfold StateManager.persistIfAuto StateManager.persist
  split <;> rfl

/-! ## Claim C2 -/

/-- Claim C2: for every batch of changes (including the empty batch) applied
through `updateFiles`, the state version after the call equals the version
before plus exactly 1, independently of the batch contents. -/
theorem updateFiles_version_plus_one (m : StateManager)
    (changes : List FileChange) (now : Nat) :
    ((StateManager.updateFiles m changes now).2).state.version
      = m.state.version + 1 := by
  unfold StateManager.updateFiles
  rw [persistIfAuto_state]

/-! ## Claim C1 -/

/-- Claim C1: when the function supplied to `transaction` throws, the error is
propagated unchanged and both the full state and (in particular) the artifact
store content are restored to their values from immediately before the
transaction started. -/
theorem transaction_restores_on_error {α E : Type} (m : StateManager)
    (fn : StateManager → Except E α × StateManager) (now : Nat) (e : E)
    (h : (fn (StateManager.createSnapshot m now).2).1 = Except.error e) :
    (StateManager.transaction m fn now).1 = Except.error e ∧
    (StateManager.transaction m fn now).2.state = m.state ∧
    (StateManager.transaction m fn now).2.state.files = m.state.files := by
  unfold StateManager.transaction
  rcases hfn : fn (StateManager.createSnapshot m now).2 with ⟨r, m2⟩
  rw [hfn] at h
  simp only at h
  subst h
  refine ⟨rfl, ?_, ?_⟩ <;>
    simp [StateManager.restoreSnapshot, StateManager.createSnapshot,
          StateManager.mkSnapshot]

/-- Fresh auto-saving manager used to witness C1. -/
def txWitnessManager : StateManager := StateManager.new none true 0

/-- A transaction body that mutates the artifact store and then throws. -/
def txWitnessFn : StateManager → Except String Unit × StateManager :=
  fun mm =>
    (Except.error "boom",
     (StateManager.updateFiles mm [mkCreate "/x.ts" "A"] 1).2)

/-- Witness for C1 at a concrete manager and failing transaction body. -/
theorem transaction_restores_on_error_witness :
    (StateManager.transaction txWitnessManager txWitnessFn 0).1
        = Except.error "boom" ∧
    (StateManager.transaction txWitnessManager txWitnessFn 0).2.state
        = txWitnessManager.state ∧
    (StateManager.transaction txWitnessManager txWitnessFn 0).2.state.files
        = txWitnessManager.state.files :=
  transaction_restores_on_error txWitnessManager txWitnessFn 0 "boom" rfl

/-! ## Claim C3 -/

/-- Claim C3 (amended): `rollback(v)` consults `Array.find`, i.e. the oldest
(first-pushed) retained snapshot whose version tag equals `v`; when one
exists it fully replaces the live state from that snapshot and returns true,
otherwise it returns false and the manager is unchanged. -/
theorem rollback_oldest_match (m : StateManager) (v : Nat) :
    (∀ s, m.snapshots.find? (fun t => decide (t.version = v)) = some s →
       (StateManager.rollback m v).1 = true ∧
       (StateManager.rollback m v).2.state = s.state) ∧
    (m.snapshots.find? (fun t => decide (t.version = v)) = none →
       (StateManager.rollback m v).1 = false ∧
       (StateManager.rollback m v).2 = m) := by
  constructor
  · intro s hs
    unfold StateManager.rollback
    rw [hs]
    refine ⟨rfl, ?_⟩
    rw [persistIfAuto_state]
    rfl
  · intro hn
    unfold StateManager.rollback
    rw [hn]
    exact ⟨rfl, rfl⟩

/-- Snapshot used to witness C3. -/
def rollbackWitnessSnap : StateSnapshot :=
  { state := StateManager.createEmptyState 0, version := 5, timestamp := 0 }

/-- Manager retaining exactly one snapshot, tagged version 5. -/
def rollbackWitnessManager : StateManager :=
  { state := StateManager.createEmptyState 0,
    snapshots := [rollbackWitnessSnap], maxSnapshots := 10,
    autoSave := false, store := none }

/-- Witness for C3 covering both the found and the not-found branch. -/
theorem rollback_oldest_match_witness :
    ((StateManager.rollback rollbackWitnessManager 5).1 = true ∧
     (StateManager.rollback rollbackWitnessManager 5).2.state
        = rollbackWitnessSnap.state) ∧
    ((StateManager.rollback rollbackWitnessManager 7).1 = false ∧
     (StateManager.rollback rollbackWitnessManager 7).2
        = rollbackWitnessManager) :=
  ⟨(rollback_oldest_match rollbackWitnessManager 5).1 rollbackWitnessSnap rfl,
   (rollback_oldest_match rollbackWitnessManager 7).2 rfl⟩

/-- Counterexample to C3 as stated: on `twoV2Manager` (reachable through the
public API) `rollback 2` succeeds but restores the artifact store of the
oldest version-2 snapshot, not of the most recent one. -/
theorem rollback_not_most_recent :
    (StateManager.rollback twoV2Manager 2).1 = true ∧
    (twoV2Manager.snapshots.reverse.find? (fun s => decide (s.version = 2))).map
        (fun s => s.state.files)
      ≠ some ((StateManager.rollback twoV2Manager 2).2.state.files) := by
  constructor
  · rfl
  · decide

/-! ## Claim C5 -/

theorem getFile_write_self (fs : FileStateMap) (p c : String)
    (l : Option String) (now : Nat) :
    getFile (writeFile fs p c l now).2 p = some (writeFile fs p c l now).1 := by
  unfold writeFile getFile
  exact mapGet_set_self fs p _

theorem writeFile_version (fs : FileStateMap) (p c : String)
    (l : Option String) (now : Nat) :
    (writeFile fs p c l now).1.version = versionAt fs p + 1 := by
  unfold writeFile versionAt
  cases getFile fs p <;> rfl

theorem versionAt_write (fs : FileStateMap) (p c : String)
    (l : Option String) (now : Nat) :
    versionAt (writeFile fs p c l now).2 p = versionAt fs p + 1 := by
  unfold versionAt
  rw [getFile_write_self fs p c l now]
  exact writeFile_version fs p c l now

theorem versionAt_writeSeq (fs : FileStateMap) (p : String)
    (cs : List String) (now : Nat) :
    versionAt (writeSeq fs p cs now) p = versionAt fs p + cs.length := by
  induction cs generalizing fs with
  | nil => simp [writeSeq]
  | cons c rest ih =>
    unfold writeSeq at *
    simp only [List.foldl_cons, List.length_cons]
    rw [ih, versionAt_write]
    omega

/-- Claim C5: a write to an absent path creates version 1, a write to a
present path bumps the version by one, N successive writes to an initially
absent path leave the artifact at version N, and delete-then-write resets
the version to 1. -/
theorem write_version_semantics (fs : FileStateMap) (p c : String)
    (l : Option String) (now : Nat) :
    (getFile fs p = none → (writeFile fs p c l now).1.version = 1) ∧
    (∀ f, getFile fs p = some f →
       (writeFile fs p c l now).1.version = f.version + 1) ∧
    (∀ cs : List String, getFile fs p = none → cs ≠ [] →
       ∃ g, getFile (writeSeq fs p cs now) p = some g ∧
            g.version = cs.length) ∧
    (∃ g, getFile (writeFile (deleteFile fs p).2 p c l now).2 p = some g ∧
          g.version = 1) := by
  refine ⟨?_, ?_, ?_, ?_⟩
  · intro h
    rw [writeFile_version]
    unfold versionAt
    rw [h]
  · intro f hf
    rw [writeFile_version]
    unfold versionAt
    rw [hf]
  · intro cs habs hne
    have hv := versionAt_writeSeq fs p cs now
    unfold versionAt at hv
    rw [habs] at hv
    simp only [Nat.zero_add] at hv
    cases hg : getFile (writeSeq fs p cs now) p with
    | none =>
      rw [hg] at hv
      cases cs with
      | nil => exact absurd rfl hne
      | cons _ _ => simp at hv
    | some g =>
      rw [hg] at hv
      exact ⟨g, rfl, hv⟩
  · have h := getFile_write_self (deleteFile fs p).2 p c l now
    refine ⟨(writeFile (deleteFile fs p).2 p c l now).1, h, ?_⟩
    rw [writeFile_version]
    unfold versionAt deleteFile getFile
    simp only
    rw [mapGet_delete_self]

/-- Witness for C5: fresh store, three writes reach version 3; a store with
one file at version 1 is bumped to 2; delete-then-write yields version 1. -/
theorem write_version_semantics_witness :
    ((writeFile [] "/x.ts" "a" none 0).1.version = 1) ∧
    ((writeFile (writeFile [] "/x.ts" "a" none 0).2 "/x.ts" "b" none 1).1.version
       = (writeFile [] "/x.ts" "a" none 0).1.version + 1) ∧
    (∃ g, getFile (writeSeq [] "/x.ts" ["a", "b", "c"] 0) "/x.ts" = some g ∧
          g.version = 3) ∧
    (∃ g, getFile
        (writeFile (deleteFile (writeFile [] "/x.ts" "a" none 0).2 "/x.ts").2
          "/x.ts" "b" none 1).2 "/x.ts" = some g ∧ g.version = 1) := by
  refine ⟨?_, ?_, ?_, ?_⟩
  · exact (write_version_semantics [] "/x.ts" "a" none 0).1 rfl
  · exact (write_version_semantics (writeFile [] "/x.ts" "a" none 0).2
      "/x.ts" "b" none 1).2.1 (writeFile [] "/x.ts" "a" none 0).1
      (getFile_write_self [] "/x.ts" "a" none 0)
  · exact (write_version_semantics [] "/x.ts" "x" none 0).2.2.1
      ["a", "b", "c"] rfl (by decide)
  · exact (write_version_semantics (writeFile [] "/x.ts" "a" none 0).2
      "/x.ts" "b" none 1).2.2.2

/-! ## Claim C10 -/

/-- Claim C10: in `applyChanges`, a create/update entry without content is
silently skipped (no store write, no record) and a delete of a missing path
produces no record; the loop body is total, so the batch operation never
throws. -/
theorem applyChanges_skip_semantics :
    (∀ (now : Nat) (acc : List VirtualFile × FileStateMap) (ch : FileChange),
       (ch.type = ChangeType.create ∨ ch.type = ChangeType.update) →
       ch.content = none → applyChange now acc ch = acc) ∧
    (∀ (now : Nat) (acc : List VirtualFile × FileStateMap) (ch : FileChange),
       ch.type = ChangeType.delete → fileExists acc.2 ch.path = false →
       applyChange now acc ch = acc) ∧
    (∀ (now : Nat) (fs : FileStateMap) (pre post : List FileChange)
       (ch : FileChange),
       (ch.type = ChangeType.create ∨ ch.type = ChangeType.update) →
       ch.content = none →
       applyChanges fs (pre ++ ch :: post) now = applyChanges fs (pre ++ post) now) ∧
    (∀ (now : Nat) (fs : FileStateMap) (post : List FileChange)
       (ch : FileChange),
       ch.type = ChangeType.delete → fileExists fs ch.path = false →
       applyChanges fs (ch :: post) now = applyChanges fs post now) := by
  have hstep : ∀ (now : Nat) (acc : List VirtualFile × FileStateMap)
      (ch : FileChange),
      (ch.type = ChangeType.create ∨ ch.type = ChangeType.update) →
      ch.content = none → applyChange now acc ch = acc := by
    intro now acc ch hty hco
    unfold applyChange
    rcases hty with h | h <;> rw [h, hco]
  have hdel : ∀ (now : Nat) (acc : List VirtualFile × FileStateMap)
      (ch : FileChange),
      ch.type = ChangeType.delete → fileExists acc.2 ch.path = false →
      applyChange now acc ch = acc := by
    intro now acc ch hty hex
    unfold applyChange
    rw [hty]
    unfold deleteFile
    unfold fileExists at hex
    simp [hex]
  refine ⟨hstep, hdel, ?_, ?_⟩
  · intro now fs pre post ch hty hco
    unfold applyChanges
    rw [List.foldl_append, List.foldl_append, List.foldl_cons,
        hstep now _ ch hty hco]
  · intro now fs post ch hty hex
    unfold applyChanges
    rw [List.foldl_cons, hdel now _ ch hty hex]

/-- Witness for C10: a contentless create and a delete of a missing path in
concrete batches leave store and records untouched. -/
theorem applyChanges_skip_semantics_witness :
    (applyChange 0 ([], []) { type := ChangeType.create, path := "/x" }
       = ([], [])) ∧
    (applyChange 0 ([], []) { type := ChangeType.delete, path := "/x" }
       = ([], [])) ∧
    (applyChanges [] [{ type := ChangeType.update, path := "/x" },
                      mkCreate "/y" "c"] 0
       = applyChanges [] [mkCreate "/y" "c"] 0) ∧
    (applyChanges [] [{ type := ChangeType.delete, path := "/x" },
                      mkCreate "/y" "c"] 0
       = applyChanges [] [mkCreate "/y" "c"] 0) := by
  refine ⟨?_, ?_, ?_, ?_⟩
  · exact applyChanges_skip_semantics.1 0 ([], [])
      { type := ChangeType.create, path := "/x" } (Or.inl rfl) rfl
  · exact applyChanges_skip_semantics.2.1 0 ([], [])
      { type := ChangeType.delete, path := "/x" } rfl rfl
  · exact applyChanges_skip_semantics.2.2.1 0 [] []
      [mkCreate "/y" "c"] { type := ChangeType.update, path := "/x" }
      (Or.inr rfl) rfl
  · exact applyChanges_skip_semantics.2.2.2 0 []
      [mkCreate "/y" "c"] { type := ChangeType.delete, path := "/x" } rfl rfl

/-! ## Claim C8 -/

/-- Claim C8: when neither the fenced extraction nor the raw content can be
parsed and validated as a classification, `parseIntentResponse` does not
throw and returns the default low-confidence query intent (type `query`,
confidence 0.5, empty target list). -/
theorem intent_parse_fallback (pv : String → Except String IntentResult)
    (content : String) (e1 e2 : String)
    (h1 : pv (extractJsonStr content) = Except.error e1)
    (h2 : pv content = Except.error e2) :
    parseIntentResponse pv content =
      { type := IntentType.query
        confidence := 1/2
        targetFiles := []
        reasoning := "Failed to parse LLM response: " ++ e1 } := by
  unfold parseIntentResponse
  rw [h1, h2]

/-! ## Claim C9 -/

theorem createSnapshot_bound (m : StateManager) (now : Nat)
    (h : m.snapshots.length ≤ m.maxSnapshots) :
    (StateManager.createSnapshot m now).2.snapshots.length
        ≤ (StateManager.createSnapshot m now).2.maxSnapshots ∧
    (StateManager.createSnapshot m now).2.maxSnapshots = m.maxSnapshots := by
  refine ⟨?_, rfl⟩
  simp only [StateManager.createSnapshot]
  split
  · simp only [List.length_drop, List.length_append, List.length_singleton]
    omega
  · rename_i hlt
    simp only [List.length_append, List.length_singleton] at *
    omega

mutual

theorem execOp_preserves_bound (o : AgentOp) (m : StateManager)
    (h : m.snapshots.length ≤ m.maxSnapshots) :
    (execOp o m).snapshots.length ≤ (execOp o m).maxSnapshots ∧
    (execOp o m).maxSnapshots = m.maxSnapshots := by
  cases o with
  | update cs now =>
    simp only [execOp, StateManager.updateFiles, persistIfAuto_snapshots,
               persistIfAuto_maxSnapshots]
    exact ⟨h, by trivial⟩
  | message r c i now =>
    simp only [execOp, StateManager.addMessage, persistIfAuto_snapshots,
               persistIfAuto_maxSnapshots]
    exact ⟨h, by trivial⟩
  | phase p now =>
    simp only [execOp, StateManager.setPhase, persistIfAuto_snapshots,
               persistIfAuto_maxSnapshots]
    exact ⟨h, by trivial⟩
  | record r now =>
    simp only [execOp, StateManager.addPhaseResult, persistIfAuto_snapshots,
               persistIfAuto_maxSnapshots]
    exact ⟨h, by trivial⟩
  | snap now => exact createSnapshot_bound m now h
  | roll v =>
    simp only [execOp, StateManager.rollback]
    cases m.snapshots.find? (fun t => decide (t.version = v)) with
    | none => exact ⟨h, rfl⟩
    | some s =>
      simp only [persistIfAuto_snapshots, persistIfAuto_maxSnapshots,
                 StateManager.restoreSnapshot]
      exact ⟨h, by trivial⟩
  | reinit seeds now =>
    have hm1 : ∀ m1 : StateManager, m1.snapshots = m.snapshots →
        m1.maxSnapshots = m.maxSnapshots →
        ((StateManager.createSnapshot m1 now).2.snapshots.length
            ≤ (StateManager.createSnapshot m1 now).2.maxSnapshots ∧
         (StateManager.createSnapshot m1 now).2.maxSnapshots
            = m.maxSnapshots) := by
      intro m1 h1 h2
      have hb := createSnapshot_bound m1 now (by rw [h1, h2]; exact h)
      exact ⟨hb.1, hb.2.trans h2⟩
    simp only [execOp]
    unfold StateManager.init
    cases m.store with
    | some st => exact hm1 _ rfl rfl
    | none =>
      cases seeds with
      | none => exact hm1 _ rfl rfl
      | some fs =>
        exact hm1 _ (persistIfAuto_snapshots _) (persistIfAuto_maxSnapshots _)
  | wipe now =>
    simp only [execOp, StateManager.clear]
    exact ⟨Nat.zero_le _, by trivial⟩
  | txn body fails now =>
    have h1 := createSnapshot_bound m now h
    have h2 := execOps_preserve_bound body
      (StateManager.createSnapshot m now).2 h1.1
    simp only [execOp]
    cases fails with
    | true =>
      simp only [if_pos, StateManager.restoreSnapshot]
      exact ⟨h2.1, (h2.2.trans h1.2)⟩
    | false =>
      simp only [Bool.false_eq_true, if_false, persistIfAuto_snapshots,
                 persistIfAuto_maxSnapshots]
      exact ⟨h2.1, (h2.2.trans h1.2)⟩

theorem execOps_preserve_bound (l : List AgentOp) (m : StateManager)
    (h : m.snapshots.length ≤ m.maxSnapshots) :
    (execOps l m).snapshots.length ≤ (execOps l m).maxSnapshots ∧
    (execOps l m).maxSnapshots = m.maxSnapshots := by
  cases l with
  | nil => exact ⟨h, rfl⟩
  | cons o rest =>
    have h1 := execOp_preserves_bound o m h
    have h2 := execOps_preserve_bound rest (execOp o m) h1.1
    exact ⟨h2.1, h2.2.trans h1.2⟩

end

/-- Claim C9: after any sequence of public operations on a fresh manager the
snapshot FIFO never exceeds the bound of 10; a snapshot creation at the
bound drops the oldest retained snapshot; and `rollback` can only restore
snapshots that are currently retained (so a dropped snapshot is thereafter
unreachable through it). -/
theorem snapshot_fifo_bounded :
    (∀ (ops : List AgentOp) (store : Option AgentState) (autoSave : Bool)
       (now : Nat),
       (execOps ops (StateManager.new store autoSave now)).snapshots.length
         ≤ 10) ∧
    (∀ (m : StateManager) (now : Nat),
       m.snapshots.length = m.maxSnapshots →
       (StateManager.createSnapshot m now).2.snapshots =
         (m.snapshots ++ [StateManager.mkSnapshot m now]).drop 1) ∧
    (∀ (m : StateManager) (v : Nat) (s : StateSnapshot),
       m.snapshots.find? (fun t => decide (t.version = v)) = some s →
       s ∈ m.snapshots ∧ (StateManager.rollback m v).2.state = s.state) := by
  refine ⟨?_, ?_, ?_⟩
  · intro ops store autoSave now
    have h := execOps_preserve_bound ops (StateManager.new store autoSave now)
      (by simp [StateManager.new])
    have hmax : (execOps ops (StateManager.new store autoSave now)).maxSnapshots
        = 10 := h.2
    rw [hmax] at h
    exact h.1
  · intro m now hfull
    have hgt : (m.snapshots ++ [StateManager.mkSnapshot m now]).length
        > m.maxSnapshots := by
      simp only [List.length_append, List.length_singleton]
      omega
    simp only [StateManager.createSnapshot]
    rw [if_pos hgt]
  · intro m v s hs
    refine ⟨List.mem_of_find?_eq_some hs, ?_⟩
    unfold StateManager.rollback
    rw [hs, persistIfAuto_state]
    rfl

/-- Manager whose snapshot FIFO is exactly at its configured bound. -/
def fullManager : StateManager :=
  { state := StateManager.createEmptyState 0,
    snapshots := [rollbackWitnessSnap], maxSnapshots := 1,
    autoSave := false, store := none }

/-- Witness for C9: a concrete operation sequence stays within the bound, a
snapshot at the bound drops the head, and a concrete rollback target is a
retained snapshot. -/
theorem snapshot_fifo_bounded_witness :
    ((execOps [AgentOp.snap 0, AgentOp.snap 1]
        (StateManager.new none false 0)).snapshots.length ≤ 10) ∧
    ((StateManager.createSnapshot fullManager 3).2.snapshots =
       (fullManager.snapshots ++ [StateManager.mkSnapshot fullManager 3]).drop 1) ∧
    (rollbackWitnessSnap ∈ rollbackWitnessManager.snapshots ∧
     (StateManager.rollback rollbackWitnessManager 5).2.state
        = rollbackWitnessSnap.state) :=
  ⟨snapshot_fifo_bounded.1 [AgentOp.snap 0, AgentOp.snap 1] none false 0,
   snapshot_fifo_bounded.2.1 fullManager 3 rfl,
   snapshot_fifo_bounded.2.2 rollbackWitnessManager 5 rollbackWitnessSnap rfl⟩

/-! ## Claim C7 -/

/-- Claim C7: in the execute loop, a policy rejection of one action's change
set discards those changes, records one failure string naming that action's
path, and continues; for a three-action plan where only the second action is
rejected, the result tracks exactly the changed paths of actions 1 and 3,
the applied changes are exactly those of actions 1 and 3, and exactly one
failure string referencing action 2's path is recorded. -/
theorem execute_policy_violation_continues
    (runAction : Action → Except String (List FileChange))
    (checkChanges : List FileChange → PolicyDecision)
    (a1 a2 a3 : Action) (c1 c2 c3 : List FileChange)
    (h1 : runAction a1 = Except.ok c1) (h2 : runAction a2 = Except.ok c2)
    (h3 : runAction a3 = Except.ok c3)
    (p1 : (checkChanges c1).allowed = true)
    (p2 : (checkChanges c2).allowed = false)
    (p3 : (checkChanges c3).allowed = true) :
    executeActions runAction checkChanges [a1, a2, a3] =
      ({ success := false
         filesChanged := trackChanged (trackChanged [] c1) c3
         errors := some ["Policy violation for " ++ a2.path ++ ": "
                          ++ (checkChanges c2).reason] },
       c1 ++ c3) := by
  unfold executeActions
  simp only [List.foldl_cons, List.foldl_nil]
  unfold executeActionStep
  rw [h1, h2, h3]
  simp [p1, p2, p3]

/-- Concrete plan actions for the C7 witness. -/
def planAction (i p : String) : Action :=
  { id := i, type := ActionType.updateFile, path := p }

/-- Concrete action runner for the C7 witness: each action yields one update
change at its own path. -/
def planRunner : Action → Except String (List FileChange) :=
  fun a => Except.ok [{ type := ChangeType.update, path := a.path,
                        content := some "c" }]

/-- Concrete policy for the C7 witness: rejects change sets touching
`/two.ts`. -/
def planPolicy : List FileChange → PolicyDecision :=
  fun ch =>
    if ch.any (fun c => decide (c.path = "/two.ts")) then
      { allowed := false, reason := "blocked" }
    else
      { allowed := true }

/-- Witness for C7: three actions, the second rejected by policy. -/
theorem execute_policy_violation_continues_witness :
    executeActions planRunner planPolicy
        [planAction "1" "/one.ts", planAction "2" "/two.ts",
         planAction "3" "/three.ts"] =
      ({ success := false
         filesChanged := trackChanged
           (trackChanged [] [{ type := ChangeType.update, path := "/one.ts",
                               content := some "c" }])
           [{ type := ChangeType.update, path := "/three.ts",
              content := some "c" }]
         errors := some ["Policy violation for /two.ts: blocked"] },
       [{ type := ChangeType.update, path := "/one.ts", content := some "c" },
        { type := ChangeType.update, path := "/three.ts",
          content := some "c" }]) :=
  execute_policy_violation_continues planRunner planPolicy
    (planAction "1" "/one.ts") (planAction "2" "/two.ts")
    (planAction "3" "/three.ts") _ _ _ rfl rfl rfl rfl rfl rfl

/-! ## Claim C4 -/

/-- Claim C4 (amended): a second `initialize()` call leaves the session state
itself unchanged, but is not a complete no-op: it behaves exactly like taking
one more snapshot of the unchanged state, growing the bounded FIFO (and
thereby possibly evicting the oldest snapshot). -/
theorem init_twice_is_extra_snapshot (m : StateManager)
    (seeds : Option (List VirtualFile)) (now now' : Nat) :
    StateManager.init (StateManager.init m seeds now) seeds now' =
      (StateManager.createSnapshot (StateManager.init m seeds now) now').2 := by
  cases hst : m.store with
  | some st =>
    simp [StateManager.init, hst, StateManager.createSnapshot,
          StateManager.mkSnapshot]
  | none =>
    cases seeds with
    | none =>
      simp [StateManager.init, hst, StateManager.createSnapshot,
            StateManager.mkSnapshot]
    | some fs =>
      cases hauto : m.autoSave with
      | true =>
        simp [StateManager.init, hst, hauto, StateManager.createSnapshot,
              StateManager.mkSnapshot, StateManager.persistIfAuto,
              StateManager.persist]
      | false =>
        simp [StateManager.init, hst, hauto, StateManager.createSnapshot,
              StateManager.mkSnapshot, StateManager.persistIfAuto,
              StateManager.persist]

/-- Counterexample to C4 as stated: on `nineSnapManager` the first
`initialize()` fills the FIFO to its bound; the second call evicts the
oldest snapshot, so `rollback 2` succeeds after one call but fails after
two — an observable difference between calling once and twice. -/
theorem init_twice_observable_difference :
    (StateManager.rollback initOnce 2).1 = true ∧
    (StateManager.rollback initTwice 2).1 = false ∧
    initOnce.state = initTwice.state := by
  refine ⟨?_, ?_, ?_⟩ <;> decide

/-! ## Claim C6: helper lemmas -/

theorem mem_of_containsStr {l : List String} {x : String}
    (h : l.contains x = true) : x ∈ l := by
  induction l with
  | nil => simp [List.contains] at h
  | cons a t ih =>
    rcases List.mem_cons.mpr (Or.inl rfl) with _
    simp only [List.contains_cons, Bool.or_eq_true, beq_iff_eq] at h
    rcases h with h | h
    · exact h ▸ List.mem_cons_self a t
    · exact List.mem_cons_of_mem a (ih h)

theorem containsStr_of_mem {l : List String} {x : String}
    (h : x ∈ l) : l.contains x = true := by
  induction l with
  | nil => simp at h
  | cons a t ih =>
    rcases List.mem_cons.mp h with h | h
    · simp [List.contains_cons, h]
    · simp only [List.contains_cons, Bool.or_eq_true, beq_iff_eq]
      exact Or.inr (ih h)

theorem strToList_append (a b : String) :
    (a ++ b).toList = a.toList ++ b.toList := by
  cases a
  cases b
  rfl

theorem startsSlash_slash_append (s : String) : startsSlash ("/" ++ s) := by
  refine ⟨s.toList, ?_⟩
  rw [strToList_append]
  rfl

theorem startsSlash_append_right (s e : String) (h : startsSlash s) :
    startsSlash (s ++ e) := by
  obtain ⟨t, ht⟩ := h
  exact ⟨t ++ e.toList, by rw [strToList_append, ht]; rfl⟩

theorem startsSlash_of_strStartsWith (s : String)
    (h : strStartsWith s "/" = true) : startsSlash s := by
  unfold strStartsWith at h
  cases hs : s.toList with
  | nil => rw [hs] at h; simp [listIsPrefix] at h
  | cons c t =>
    rw [hs] at h
    simp only [listIsPrefix, Bool.and_eq_true, decide_eq_true_eq] at h
    exact ⟨t, by rw [hs, h.1]⟩

theorem bare_not_startsSlash (s : String) (h : isBareModule s = true) :
    ¬ startsSlash s := by
  intro ⟨t, ht⟩
  unfold isBareModule at h
  simp only [Bool.not_eq_true', Bool.or_eq_false_iff] at h
  have h2 := h.2
  unfold strStartsWith at h2
  rw [ht] at h2
  simp [listIsPrefix] at h2

theorem probe_spec (base : String) (paths : List String)
    (cands : List String) (r : String)
    (h : cands.findSome?
        (fun e => if paths.contains (base ++ e) = true
                  then some (base ++ e) else none) = some r) :
    r ∈ paths ∧ ∃ e, r = base ++ e := by
  induction cands with
  | nil => simp [List.findSome?] at h
  | cons e t ih =>
    rw [List.findSome?_cons] at h
    by_cases hc : paths.contains (base ++ e) = true
    · rw [if_pos hc] at h
      cases h
      exact ⟨mem_of_containsStr hc, e, rfl⟩
    · rw [if_neg hc] at h
      exact ih h

theorem resolveWithExtensions_spec (base : String) (paths : List String)
    (r : String) (h : resolveWithExtensions base paths = some r) :
    r ∈ paths ∧ ∃ e, r = base ++ e := by
  unfold resolveWithExtensions at h
  by_cases hc : paths.contains base = true
  · rw [if_pos hc] at h
    cases h
    refine ⟨mem_of_containsStr hc, "", ?_⟩
    cases base
    simp [String.append]
  · rw [if_neg hc] at h
    cases hfs : [".ts", ".tsx", ".js", ".jsx"].findSome?
        (fun ext => if paths.contains (base ++ ext) = true
                    then some (base ++ ext) else none) with
    | some p =>
      rw [hfs] at h
      cases h
      exact probe_spec base paths _ _ hfs
    | none =>
      rw [hfs] at h
      exact probe_spec base paths _ _ h

theorem resolveImportPath_spec (spec imp : String) (paths : List String)
    (r : String) (h : resolveImportPath spec imp paths = some r) :
    r ∈ paths ∧ startsSlash r := by
  unfold resolveImportPath at h
  by_cases hbare : isBareModule spec = true
  · rw [if_pos hbare] at h
    cases h
  · rw [if_neg hbare] at h
    by_cases hdot : strStartsWith spec "." = true
    · rw [if_pos hdot] at h
      have hs := resolveWithExtensions_spec _ _ _ h
      refine ⟨hs.1, ?_⟩
      obtain ⟨e, he⟩ := hs.2
      rw [he]
      exact startsSlash_append_right _ _ (startsSlash_slash_append _)
    · rw [if_neg hdot] at h
      by_cases hsl : strStartsWith spec "/" = true
      · rw [if_pos hsl] at h
        have hs := resolveWithExtensions_spec _ _ _ h
        refine ⟨hs.1, ?_⟩
        obtain ⟨e, he⟩ := hs.2
        rw [he]
        exact startsSlash_append_right _ _ (startsSlash_of_strStartsWith _ hsl)
      · rw [if_neg hsl] at h
        cases h

theorem addEdge_depts_mono (fp : String) (paths : List String)
    (acc : List String × List (String × List String)) (spec : String)
    (x q : String) (h : x ∈ (mapGet acc.2 q).getD []) :
    x ∈ (mapGet (addEdge fp paths acc spec).2 q).getD [] := by
  unfold addEdge
  cases hr : resolveImportPath spec fp paths with
  | none => exact h
  | some r =>
    dsimp only
    by_cases hrf : r = fp
    · rw [if_pos hrf]
      exact h
    · rw [if_neg hrf]
      by_cases hq : q = r
      · subst hq
        simp only [mapGet_set_self, Option.getD_some]
        split
        · exact h
        · exact List.mem_append_left _ h
      · simp only [mapGet_set_ne acc.2 r q _ hq]
        exact h

theorem foldEdges_depts_mono (fp : String) (paths : List String)
    (specs : List String) (acc : List String × List (String × List String))
    (x q : String) (h : x ∈ (mapGet acc.2 q).getD []) :
    x ∈ (mapGet (specs.foldl (addEdge fp paths) acc).2 q).getD [] := by
  induction specs generalizing acc with
  | nil => exact h
  | cons s t ih =>
    rw [List.foldl_cons]
    exact ih _ (addEdge_depts_mono fp paths acc s x q h)

theorem processFile_depts_mono (paths : List String)
    (acc : List (String × List String) × List (String × List String))
    (f : VirtualFile) (x q : String) (h : x ∈ (mapGet acc.2 q).getD []) :
    x ∈ (mapGet (processFile paths acc f).2 q).getD [] := by
  unfold processFile
  exact foldEdges_depts_mono f.path paths _ _ x q h

theorem processFile_deps_other (paths : List String)
    (acc : List (String × List String) × List (String × List String))
    (f : VirtualFile) (q : String) (hq : q ≠ f.path) :
    mapGet (processFile paths acc f).1 q = mapGet acc.1 q := by
  unfold processFile
  exact mapGet_set_ne acc.1 f.path q _ hq

theorem resolve_dotb (paths : List String)
    (hb : paths.contains "/b.ts" = true) (hnb : paths.contains "/b" = false) :
    resolveImportPath "./b" "/a.ts" paths = some "/b.ts" := by
  have h1 : isBareModule "./b" = false := rfl
  have h2 : strStartsWith "./b" "." = true := rfl
  have h3 : resolveRelativePath "./b" "/a.ts" = "/b" := rfl
  have h4 : ("/b" ++ ".ts" : String) = "/b.ts" := rfl
  unfold resolveImportPath
  rw [h1]
  simp only [Bool.false_eq_true, if_false]
  rw [if_pos h2, h3]
  unfold resolveWithExtensions
  rw [if_neg (by rw [hnb]; exact Bool.false_ne_true)]
  rw [List.findSome?_cons]
  rw [h4]
  rw [if_pos hb]

/-- Processing the `/a.ts` artifact itself sets its dependencies list to
exactly `["/b.ts"]` and records `/a.ts` among the dependents of `/b.ts`. -/
theorem processFile_establishes (paths : List String)
    (acc : List (String × List String) × List (String × List String))
    (fa : VirtualFile) (hpa : fa.path = "/a.ts")
    (hca : fa.content = "import x from './b'")
    (hb : paths.contains "/b.ts" = true)
    (hnb : paths.contains "/b" = false) :
    mapGet (processFile paths acc fa).1 "/a.ts" = some ["/b.ts"] ∧
    "/a.ts" ∈ (mapGet (processFile paths acc fa).2 "/b.ts").getD [] := by
  unfold processFile
  rw [hpa, hca]
  rw [show extractImports "import x from './b'" = ["./b"] from rfl]
  rw [List.foldl_cons, List.foldl_nil]
  unfold addEdge
  rw [resolve_dotb paths hb hnb]
  dsimp only
  rw [if_neg (by decide : ¬ ("/b.ts" : String) = "/a.ts")]
  simp only
  constructor
  · rw [show sortStrings (dedupKeepFirst ([] ++ ["/b.ts"])) = ["/b.ts"] from rfl]
    exact mapGet_set_self _ _ _
  · simp only [mapGet_set_self, Option.getD_some]
    split
    · rename_i hmem
      exact mem_of_containsStr hmem
    · exact List.mem_append_right _ (List.mem_singleton.mpr rfl)

/-- The established facts survive processing any further artifacts whose
`/a.ts` occurrences (if any) carry the same content. -/
theorem foldFiles_preserves (paths : List String) (fs : List VirtualFile)
    (acc : List (String × List String) × List (String × List String))
    (hconts : ∀ f ∈ fs, f.path = "/a.ts" →
       f.content = "import x from './b'")
    (hb : paths.contains "/b.ts" = true)
    (hnb : paths.contains "/b" = false)
    (h1 : mapGet acc.1 "/a.ts" = some ["/b.ts"])
    (h2 : "/a.ts" ∈ (mapGet acc.2 "/b.ts").getD []) :
    mapGet (fs.foldl (processFile paths) acc).1 "/a.ts" = some ["/b.ts"] ∧
    "/a.ts" ∈ (mapGet (fs.foldl (processFile paths) acc).2 "/b.ts").getD [] := by
  induction fs generalizing acc with
  | nil => exact ⟨h1, h2⟩
  | cons f t ih =>
    rw [List.foldl_cons]
    by_cases hf : f.path = "/a.ts"
    · have hest := processFile_establishes paths acc f hf
        (hconts f (List.mem_cons_self f t) hf) hb hnb
      exact ih _ (fun g hg => hconts g (List.mem_cons_of_mem f hg))
        hest.1 hest.2
    · have h1' : mapGet (processFile paths acc f).1 "/a.ts" = some ["/b.ts"] := by
        rw [processFile_deps_other paths acc f "/a.ts" (fun he => hf he.symm)]
        exact h1
      exact ih _ (fun g hg => hconts g (List.mem_cons_of_mem f hg)) h1'
        (processFile_depts_mono paths acc f "/a.ts" "/b.ts" h2)

theorem mem_insertSorted (x y : String) (l : List String)
    (h : x ∈ insertSorted y l) : x = y ∨ x ∈ l := by
  induction l with
  | nil => simpa [insertSorted] using h
  | cons z t ih =>
    unfold insertSorted at h
    split at h
    · rcases List.mem_cons.mp h with h | h
      · exact Or.inl h
      · exact Or.inr h
    · rcases List.mem_cons.mp h with h | h
      · exact Or.inr (h ▸ List.mem_cons_self z t)
      · rcases ih h with h | h
        · exact Or.inl h
        · exact Or.inr (List.mem_cons_of_mem z h)

theorem mem_sortStrings (x : String) (l : List String)
    (h : x ∈ sortStrings l) : x ∈ l := by
  induction l with
  | nil => simpa [sortStrings] using h
  | cons y t ih =>
    unfold sortStrings at h
    rcases mem_insertSorted x y (sortStrings t) h with h | h
    · exact h ▸ List.mem_cons_self y t
    · exact List.mem_cons_of_mem y (ih h)

theorem mem_dedupAux (x : String) (l acc : List String)
    (h : x ∈ l.foldl
      (fun acc s => if acc.contains s = true then acc else acc ++ [s]) acc) :
    x ∈ acc ∨ x ∈ l := by
  induction l generalizing acc with
  | nil => exact Or.inl h
  | cons s t ih =>
    rw [List.foldl_cons] at h
    rcases ih _ h with h' | h'
    · by_cases hc : acc.contains s = true
      · rw [if_pos hc] at h'
        exact Or.inl h'
      · rw [if_neg hc] at h'
        rcases List.mem_append.mp h' with h'' | h''
        · exact Or.inl h''
        · exact Or.inr (List.mem_singleton.mp h'' ▸ List.mem_cons_self s t)
    · exact Or.inr (List.mem_cons_of_mem s h')

theorem mem_dedupKeepFirst (x : String) (l : List String)
    (h : x ∈ dedupKeepFirst l) : x ∈ l := by
  rcases mem_dedupAux x l [] h with h' | h'
  · simp at h'
  · exact h'

/-- Every value list of the forward-adjacency map contains only
slash-initial paths. -/
def DepsSlash (m : List (String × List String)) : Prop :=
  ∀ p l, mapGet m p = some l → ∀ x ∈ l, startsSlash x

/-- Every value list of the reverse-adjacency map contains only known
artifact paths. -/
def DeptsSub (m : List (String × List String)) (paths : List String) : Prop :=
  ∀ p l, mapGet m p = some l → ∀ x ∈ l, x ∈ paths

theorem depsSlash_initFold (fs : List VirtualFile)
    (m : List (String × List String)) (hm : DepsSlash m) :
    DepsSlash (fs.foldl (fun m f => mapSet m f.path ([] : List String)) m) := by
  induction fs generalizing m with
  | nil => exact hm
  | cons f t ih =>
    rw [List.foldl_cons]
    refine ih _ ?_
    intro p l hl x hx
    by_cases hp : p = f.path
    · subst hp
      rw [mapGet_set_self] at hl
      cases hl
      simp at hx
    · rw [mapGet_set_ne _ _ _ _ hp] at hl
      exact hm p l hl x hx

theorem deptsSub_initFold (fs : List VirtualFile) (paths : List String)
    (m : List (String × List String)) (hm : DeptsSub m paths) :
    DeptsSub (fs.foldl (fun m f => mapSet m f.path ([] : List String)) m)
      paths := by
  induction fs generalizing m with
  | nil => exact hm
  | cons f t ih =>
    rw [List.foldl_cons]
    refine ih _ ?_
    intro p l hl x hx
    by_cases hp : p = f.path
    · subst hp
      rw [mapGet_set_self] at hl
      cases hl
      simp at hx
    · rw [mapGet_set_ne _ _ _ _ hp] at hl
      exact hm p l hl x hx

theorem getD_elements {m : List (String × List String)} {paths : List String}
    (hm : DeptsSub m paths) (r : String) :
    ∀ x ∈ (mapGet m r).getD [], x ∈ paths := by
  intro x hx
  cases hg : mapGet m r with
  | none => rw [hg] at hx; simp at hx
  | some l =>
    rw [hg] at hx
    exact hm r l hg x hx

theorem foldEdges_deps_slash (fp : String) (paths : List String)
    (specs : List String) (acc : List String × List (String × List String))
    (hacc : ∀ x ∈ acc.1, startsSlash x) :
    ∀ x ∈ (specs.foldl (addEdge fp paths) acc).1, startsSlash x := by
  induction specs generalizing acc with
  | nil => exact hacc
  | cons s t ih =>
    rw [List.foldl_cons]
    refine ih _ ?_
    unfold addEdge
    cases hr : resolveImportPath s fp paths with
    | none => exact hacc
    | some r =>
      dsimp only
      split
      · exact hacc
      · intro x hx
        rcases List.mem_append.mp hx with hx | hx
        · exact hacc x hx
        · rw [List.mem_singleton.mp hx]
          exact (resolveImportPath_spec s fp paths r hr).2

theorem foldEdges_depts_sub (fp : String) (paths pathsAll : List String)
    (specs : List String) (acc : List String × List (String × List String))
    (hfp : fp ∈ pathsAll) (hacc : DeptsSub acc.2 pathsAll) :
    DeptsSub (specs.foldl (addEdge fp paths) acc).2 pathsAll := by
  induction specs generalizing acc with
  | nil => exact hacc
  | cons s t ih =>
    rw [List.foldl_cons]
    refine ih _ ?_
    unfold addEdge
    cases hr : resolveImportPath s fp paths with
    | none => exact hacc
    | some r =>
      dsimp only
      split
      · exact hacc
      · intro p l hl x hx
        by_cases hp : p = r
        · subst hp
          rw [mapGet_set_self] at hl
          cases hl
          split at hx
          · exact getD_elements hacc p x hx
          · rcases List.mem_append.mp hx with hx | hx
            · exact getD_elements hacc p x hx
            · exact (List.mem_singleton.mp hx) ▸ hfp
        · rw [mapGet_set_ne _ _ _ _ hp] at hl
          exact hacc p l hl x hx

theorem processFile_invariants (paths pathsAll : List String)
    (acc : List (String × List String) × List (String × List String))
    (f : VirtualFile) (hf : f.path ∈ pathsAll)
    (h1 : DepsSlash acc.1) (h2 : DeptsSub acc.2 pathsAll) :
    DepsSlash (processFile paths acc f).1 ∧
    DeptsSub (processFile paths acc f).2 pathsAll := by
  unfold processFile
  constructor
  · intro p l hl x hx
    by_cases hp : p = f.path
    · subst hp
      rw [mapGet_set_self] at hl
      cases hl
      have hx1 := mem_dedupKeepFirst x _ (mem_sortStrings x _ hx)
      exact foldEdges_deps_slash f.path paths _ ([], acc.2)
        (by intro y hy; simp at hy) x hx1
    · rw [mapGet_set_ne _ _ _ _ hp] at hl
      exact h1 p l hl x hx
  · exact foldEdges_depts_sub f.path paths pathsAll _ ([], acc.2) hf h2

theorem buildFold_invariants (paths pathsAll : List String)
    (fs : List VirtualFile) (hfs : ∀ f ∈ fs, f.path ∈ pathsAll)
    (acc : List (String × List String) × List (String × List String))
    (h1 : DepsSlash acc.1) (h2 : DeptsSub acc.2 pathsAll) :
    DepsSlash (fs.foldl (processFile paths) acc).1 ∧
    DeptsSub (fs.foldl (processFile paths) acc).2 pathsAll := by
  induction fs generalizing acc with
  | nil => exact ⟨h1, h2⟩
  | cons f t ih =>
    rw [List.foldl_cons]
    have hstep := processFile_invariants paths pathsAll acc f
      (hfs f (List.mem_cons_self f t)) h1 h2
    exact ih (fun g hg => hfs g (List.mem_cons_of_mem f hg)) _
      hstep.1 hstep.2

theorem buildGraph_membership (l1 l2 : List VirtualFile) (fa : VirtualFile)
    (hfa_path : fa.path = "/a.ts")
    (hcont : ∀ f ∈ l1 ++ fa :: l2, f.path = "/a.ts" →
       f.content = "import x from './b'")
    (hbC : ((l1 ++ fa :: l2).map (fun f => f.path)).contains "/b.ts" = true)
    (hnbC : ((l1 ++ fa :: l2).map (fun f => f.path)).contains "/b" = false) :
    mapGet (buildDependencyGraph (l1 ++ fa :: l2)).dependencies "/a.ts"
      = some ["/b.ts"] ∧
    "/a.ts" ∈ (mapGet (buildDependencyGraph (l1 ++ fa :: l2)).dependents
      "/b.ts").getD [] := by
  unfold buildDependencyGraph
  dsimp only
  rw [List.foldl_append, List.foldl_cons]
  have hest := processFile_establishes
    ((l1 ++ fa :: l2).map (fun f => f.path))
    (List.foldl (processFile ((l1 ++ fa :: l2).map fun f => f.path))
      (((l1 ++ fa :: l2).foldl
          (fun m f => mapSet m f.path ([] : List String)) []),
       ((l1 ++ fa :: l2).foldl
          (fun m f => mapSet m f.path ([] : List String)) [])) l1)
    fa hfa_path
    (hcont fa (List.mem_append_right l1 (List.mem_cons_self fa l2)) hfa_path)
    hbC hnbC
  have hcont2 : ∀ g ∈ l2, g.path = "/a.ts" →
      g.content = "import x from './b'" := by
    intro g hg hgp
    refine hcont g ?_ hgp
    exact List.mem_append_right l1 (List.mem_cons_of_mem fa hg)
  have hpres := foldFiles_preserves ((l1 ++ fa :: l2).map (fun f => f.path))
    l2 _ hcont2 hbC hnbC hest.1 hest.2
  exact ⟨hpres.1, hpres.2⟩

/-- Claim C6 (amended): in an artifact set where every artifact at `/a.ts`
has content exactly `import x from './b'` (and one exists), `/b.ts` exists,
and no artifact occupies the shadowing path `/b`, the graph places `/b.ts`
in `/a.ts`'s dependencies and `/a.ts` in `/b.ts`'s dependents.  Moreover a
bare specifier never resolves to an edge: it appears in no dependencies
list, and it can appear in a dependents list only as the path of an
artifact of the set (an importer), never as a resolved import target. -/
theorem buildGraph_resolution (files : List VirtualFile)
    (hex : ∃ f, f ∈ files ∧ f.path = "/a.ts")
    (hcont : ∀ f ∈ files, f.path = "/a.ts" →
       f.content = "import x from './b'")
    (hb : "/b.ts" ∈ files.map (fun f => f.path))
    (hnb : "/b" ∉ files.map (fun f => f.path)) :
    "/b.ts" ∈ (mapGet (buildDependencyGraph files).dependencies "/a.ts").getD [] ∧
    "/a.ts" ∈ (mapGet (buildDependencyGraph files).dependents "/b.ts").getD [] ∧
    ∀ s : String, isBareModule s = true →
      (∀ p, s ∉ (mapGet (buildDependencyGraph files).dependencies p).getD []) ∧
      (∀ p, s ∈ (mapGet (buildDependencyGraph files).dependents p).getD [] →
         s ∈ files.map (fun f => f.path)) := by
  have hmain :
      mapGet (buildDependencyGraph files).dependencies "/a.ts"
        = some ["/b.ts"] ∧
      "/a.ts" ∈ (mapGet (buildDependencyGraph files).dependents
        "/b.ts").getD [] := by
    obtain ⟨fa, hfa_mem, hfa_path⟩ := hex
    obtain ⟨l1, l2, hsplit⟩ := List.append_of_mem hfa_mem
    rw [hsplit] at hcont hb hnb ⊢
    have hnbC : ((l1 ++ fa :: l2).map (fun f => f.path)).contains "/b"
        = false := by
      cases hc : ((l1 ++ fa :: l2).map (fun f => f.path)).contains "/b" with
      | false => rfl
      | true => exact absurd (mem_of_containsStr hc) hnb
    exact buildGraph_membership l1 l2 fa hfa_path hcont
      (containsStr_of_mem hb) hnbC
  refine ⟨?_, hmain.2, ?_⟩
  · rw [hmain.1]
    simp
  · intro s hbare
    have hinv := buildFold_invariants (files.map (fun f => f.path))
      (files.map (fun f => f.path)) files
      (fun f hf => List.mem_map.mpr ⟨f, hf, rfl⟩)
      ((files.foldl (fun m f => mapSet m f.path ([] : List String)) []),
       (files.foldl (fun m f => mapSet m f.path ([] : List String)) []))
      (depsSlash_initFold files [] (by intro p l hl; cases hl))
      (deptsSub_initFold files _ [] (by intro p l hl; cases hl))
    constructor
    · intro p hmem
      cases hg : mapGet (buildDependencyGraph files).dependencies p with
      | none => rw [hg] at hmem; simp at hmem
      | some l =>
        rw [hg] at hmem
        simp only [Option.getD_some] at hmem
        have := hinv.1 p l hg s hmem
        exact bare_not_startsSlash s hbare this
    · intro p hmem
      cases hg : mapGet (buildDependencyGraph files).dependents p with
      | none => rw [hg] at hmem; simp at hmem
      | some l =>
        rw [hg] at hmem
        simp only [Option.getD_some] at hmem
        exact hinv.2 p l hg s hmem

/-- A third artifact with a bare import, used in the C6 witness set. -/
def reactFile : VirtualFile := plainFile "/c.ts" "import y from 'react'"

/-- Concrete artifact set for the C6 witness. -/
def resolutionFiles : List VirtualFile :=
  [plainFile "/a.ts" "import x from './b'", plainFile "/b.ts" "", reactFile]

/-- Witness for C6 on a concrete three-artifact set, including the bare
specifier `react`. -/
theorem buildGraph_resolution_witness :
    ("/b.ts" ∈ (mapGet (buildDependencyGraph resolutionFiles).dependencies
        "/a.ts").getD []) ∧
    ("/a.ts" ∈ (mapGet (buildDependencyGraph resolutionFiles).dependents
        "/b.ts").getD []) ∧
    ("react" ∉ (mapGet (buildDependencyGraph resolutionFiles).dependencies
        "/a.ts").getD []) ∧
    ("react" ∈ (mapGet (buildDependencyGraph resolutionFiles).dependents
        "/b.ts").getD [] →
      "react" ∈ resolutionFiles.map (fun f => f.path)) := by
  have h := buildGraph_resolution resolutionFiles
    ⟨plainFile "/a.ts" "import x from './b'", by decide⟩
    (by decide) (by decide) (by decide)
  exact ⟨h.1, h.2.1, (h.2.2 "react" rfl).1 "/a.ts", (h.2.2 "react" rfl).2 "/b.ts"⟩

/-- Counterexample to C6 as stated: with an extension-less artifact `/b`
present, the exact-match probe shadows `/b.ts`, and with content that only
contains the import text as a substring, the scan extracts no edge at all;
in both sets `/b.ts` exists yet does not appear in `/a.ts`'s
dependencies. -/
theorem buildGraph_claim_counterexample :
    ("/b.ts" ∉ (mapGet (buildDependencyGraph shadowFiles).dependencies
        "/a.ts").getD []) ∧
    ("/b.ts" ∉ (mapGet (buildDependencyGraph quoteFiles).dependencies
        "/a.ts").getD []) := by
  decide

/-- Witness for C8 with an always-failing parser on unparseable text. -/
theorem intent_parse_fallback_witness :
    parseIntentResponse (fun _ => Except.error "bad JSON") "not json at all" =
      { type := IntentType.query
        confidence := 1/2
        targetFiles := []
        reasoning := "Failed to parse LLM response: bad JSON" } :=
  intent_parse_fallback (fun _ => Except.error "bad JSON") "not json at all"
    "bad JSON" "bad JSON" rfl rfl

end ForgeAI
